import Mathlib

/-!
Shallow embedding of `main.go` from DityaSen29/Postman_Backend_Task1.

The program reads spreadsheet rows (sequences of text cells), validates and
classifies each row into a `Student` record, aggregates per-branch and grand
sums/counts, and ranks students per scoring dimension.

Modelling conventions:
* Go `float64` values are idealised as `ℚ` (the spec speaks of real numbers;
  the claims under study are about arithmetic structure, not bit-level
  floating point).
* `strconv.ParseFloat` is modelled for plain decimal notation
  (optional sign, digits, optional fractional part), the notation the data
  uses; a failed parse is `none`, matching Go's non-nil `err`.
* Go string indexing/slicing is by byte; all classification keys are ASCII,
  so `List Char` positions coincide with byte positions.
* Go slice indexing `row[i]` panics when out of bounds.  The embedding of
  `parseRow` uses `getD` (total); the bounds question itself is treated by
  the explicit access-set definitions `parseRowAccesses` / `accessesInBounds`
  below, which record exactly which positions `parseRow` reads.
* `fmt`/`log` output is modelled as data: diagnostics become a `List Diag`.
-/

/-- The `Student` structure, main.go:15-24.  Fields renamed only in case. -/
structure Student where
  empID : String
  branch : String
  quiz : ℚ
  midSem : ℚ
  labTest : ℚ
  weeklyLabs : ℚ
  compre : ℚ
  total : ℚ
deriving Repr, DecidableEq, Inhabited

/-- Branch name mapping, main.go:27-34 (`branchMap`), as an association list. -/
def branchMap : List (String × String) :=
  [("2021A2", "Civil 2021"), ("2024A3", "EEE 2024"), ("2024A4", "Mechanical 2024"),
   ("2024A5", "Pharma 2024"), ("2024A7", "CSE 2024"), ("2024A8", "ENI 2024"), ("2024AA", "ECE 2024"),
   ("2024AD", "MnC 2024"), ("2024B1", "MSc Biology"), ("2020B5", "MSc Physics 2020"),
   ("2021A7", "CSE 2021"), ("2022A7", "CSE 2022"),
   ("2023A7", "CSE 2023"), ("2021A8", "ENI 2021"), ("2021AA", "ECE 2021"),
   ("2021B1", "Msc Biology 2021"), ("2021B4", "Msc Maths 2021"),
   ("2021B5", "Msc Physics 2021"), ("2022A1", "Chemical 2022"), ("2022A2", "Civil 2022"),
   ("2022A3", "EEE 2022"), ("2022A4", "Mechanical 2022"),
   ("2022AA", "ECE 2022"), ("2022B2", "MSc Chemistry 2022"), ("2023A5", "Pharma 2023"),
   ("2023A8", "ENI 2023")]

/-- Tolerance constant `const tolerance = 0.01`, main.go:36. -/
def tolerance : ℚ := 1 / 100

/-- Value of a run of decimal digits. -/
def digitsToNat (cs : List Char) : ℕ :=
  cs.foldl (fun n c => 10 * n + (c.toNat - ('0').toNat)) 0

/-- Unsigned decimal number: digits with an optional fractional part.
At least one digit must be present overall (Go accepts `"250."` and `".5"`
but rejects `"."` and `""`). -/
def parseUnsigned (cs : List Char) : Option ℚ :=
  let intPart := cs.takeWhile Char.isDigit
  let rest := cs.dropWhile Char.isDigit
  match rest with
  | [] => if intPart.isEmpty then none else some (digitsToNat intPart : ℚ)
  | '.' :: frac =>
      if frac.all Char.isDigit && !(intPart.isEmpty && frac.isEmpty) then
        some ((digitsToNat intPart : ℚ) + (digitsToNat frac : ℚ) / (10 ^ frac.length : ℚ))
      else none
  | _ => none

/-- Model of `strconv.ParseFloat(s, 64)` on plain decimal notation:
`none` models a non-nil error. -/
def parseFloat (s : String) : Option ℚ :=
  match s.toList with
  | '+' :: cs => parseUnsigned cs
  | '-' :: cs => (parseUnsigned cs).map Neg.neg
  | cs => parseUnsigned cs

/-- The numeric value `parseRow` obtains from cell `i`:
`v, _ := strconv.ParseFloat(row[i], 64)` leaves `v = 0` when the parse
fails (main.go:95-100). -/
def numAt (row : List String) (i : ℕ) : ℚ :=
  (parseFloat (row.getD i "")).getD 0

/-- One diagnostic line on the log stream (`log.Printf`, main.go:104,112). -/
inductive Diag where
  | invalidBranch (campusID : String)
  | discrepancy (empID : String) (expected found : ℚ)
deriving Repr, DecidableEq

/-- Branch extraction `extractBranch`, main.go:131-140: take the first six characters of the
campus ID and keep them only when they are a key of `branchMap`. -/
def extractBranch (campusID : String) : String :=
  if campusID.length < 6 then ""
  else
    let branch := (campusID.toList.take 6).asString
    if (branchMap.lookup branch).isSome then branch else ""

/-- Tolerance test `isWithinTolerance`, main.go:143-145. -/
def isWithinTolerance (a b : ℚ) : Bool :=
  |a - b| ≤ tolerance

/-- The cell positions `parseRow` reads (main.go:93-100):
identifier at 2, campus ID at 3, numeric components at 4,5,6,7,9 and the
declared total at 10. -/
def parseRowAccesses : List ℕ := [2, 3, 4, 5, 6, 7, 9, 10]

/-- All positions `parseRow` reads are inside the row.  In Go an access
outside the row is a runtime panic (index out of range), so this is the
safety condition for calling `parseRow`. -/
def accessesInBounds (row : List String) : Prop :=
  ∀ i ∈ parseRowAccesses, i < row.length

instance (row : List String) : Decidable (accessesInBounds row) := by
  unfold accessesInBounds; infer_instance

/-- The admission test of the row loop, main.go:72: row `i` is processed
unless it is the header (`i = 0`) or has fewer than 10 cells. -/
def rowAdmitted (i : ℕ) (row : List String) : Bool :=
  !(i == 0 || row.length < 10)

/-- Row validation `parseRow`, main.go:92-128: extract the fields, resolve the branch
(reject when it does not resolve), compare computed and declared totals
within `tolerance` (flag but accept on discrepancy), and build the record. -/
def parseRow (row : List String) : Option Student × List Diag :=
  let empID := row.getD 2 ""
  let campusID := row.getD 3 ""
  let quiz := numAt row 4
  let midSem := numAt row 5
  let labTest := numAt row 6
  let weeklyLabs := numAt row 7
  let compre := numAt row 9
  let total := numAt row 10
  let branch := extractBranch campusID
  if branch.length < 6 then
    (none, [Diag.invalidBranch campusID])
  else
    let preCompre := quiz + midSem + labTest + weeklyLabs
    let calculatedTotal := preCompre + compre
    let ds :=
      if isWithinTolerance calculatedTotal total then ([] : List Diag)
      else [Diag.discrepancy empID calculatedTotal total]
    (some ⟨empID, branch, quiz, midSem, labTest, weeklyLabs, compre, total⟩, ds)

/-- The state accumulated by `processFile`, main.go:65-69.  The two Go maps
are modelled as association lists whose update mimics map semantics
(`bumpQ` / `bumpN` below); Go map iteration order is not relied on by any
claim. -/
structure AggState where
  students : List Student
  branchSums : List (String × ℚ)
  branchCounts : List (String × ℕ)
  totalSum : ℚ
  totalCount : ℕ
deriving Repr, DecidableEq

/-- Map update `branchSums[k] += v` on the association-list model of a Go map. -/
def bumpQ (m : List (String × ℚ)) (k : String) (v : ℚ) : List (String × ℚ) :=
  match m with
  | [] => [(k, v)]
  | (k', v') :: rest => if k' = k then (k', v' + v) :: rest else (k', v') :: bumpQ rest k v

/-- Map update `branchCounts[k]++` on the association-list model of a Go map. -/
def bumpN (m : List (String × ℕ)) (k : String) : List (String × ℕ) :=
  match m with
  | [] => [(k, 1)]
  | (k', v') :: rest => if k' = k then (k', v' + 1) :: rest else (k', v') :: bumpN rest k

/-- The empty accumulator state at main.go:65-69. -/
def initState : AggState := ⟨[], [], [], 0, 0⟩

/-- The body of the row loop for a non-header row, main.go:72-86: skip rows
with fewer than 10 cells, parse, and on acceptance append the record and
update both branch-indexed maps and the grand sum and count with the
record's `Total`. -/
def stepRow (st : AggState) (row : List String) : AggState :=
  if row.length < 10 then st
  else
    match (parseRow row).1 with
    | none => st
    | some s =>
        { students := st.students ++ [s]
          branchSums := bumpQ st.branchSums s.branch s.total
          branchCounts := bumpN st.branchCounts s.branch
          totalSum := st.totalSum + s.total
          totalCount := st.totalCount + 1 }

/-- File processing `processFile`, main.go:52-89, restricted to its pure core: the file and
sheet are the collaborator that yields `rows`; row 0 (the header) is always
skipped (`i == 0` branch of main.go:72), then the loop folds `stepRow` over
the remaining rows in order. -/
def processFile (rows : List (List String)) : AggState :=
  (rows.drop 1).foldl stepRow initState

/-- The grand average printed at main.go:155: `totalSum/float64(totalCount)`,
computed unconditionally.  In ℚ division by zero yields `0`; in Go the same
expression with `totalCount = 0` yields `NaN` — either way the division is
performed with a zero divisor, there is no zero-count guard in the code. -/
def overallAverage (st : AggState) : ℚ :=
  st.totalSum / (st.totalCount : ℚ)

/-- The per-branch average printed at main.go:157:
`sum/float64(branchCounts[branch])` for each entry of `branchSums`. -/
def branchAverages (st : AggState) : List (String × ℚ) :=
  st.branchSums.map (fun p => (p.1, p.2 / ((st.branchCounts.lookup p.1).getD 0 : ℚ)))

-- ===== Port of the backend of Go's `sort.Slice` (pdqsort, Go >= 1.19,
-- src/sort/zsortfunc.go), specialised to the comparator `sortByComponent`
-- passes at main.go:188: `Less(i, j) = getVal(x[i]) > getVal(x[j])`.
-- Loops are modelled by structural recursion on an explicit iteration bound
-- (`fuel`), always called with more fuel than any run can consume.

/-- The slice being sorted in place. -/
abbrev GoArr := Array Student

def agetD (xs : GoArr) (i : ℕ) : Student := xs.getD i default

/-- Comparator `data.Less(i, j)` for the closure at main.go:188 (descending order). -/
def lessAt (g : Student → ℚ) (xs : GoArr) (i j : ℕ) : Bool :=
  g (agetD xs j) < g (agetD xs i)

/-- Exchange `data.Swap(i, j)`. -/
def aswap (xs : GoArr) (i j : ℕ) : GoArr :=
  match xs.get? i, xs.get? j with
  | some vi, some vj => (xs.setD i vj).setD j vi
  | _, _ => xs

/-- Inner loop of insertionSort: `for j := i; j > a && Less(j, j-1); j--`. -/
def bubbleLeft (g : Student → ℚ) (xs : GoArr) (a : ℕ) : ℕ → GoArr
  | 0 => xs
  | j + 1 =>
      if a ≤ j ∧ lessAt g xs (j + 1) j then
        bubbleLeft g (aswap xs (j + 1) j) a j
      else xs

/-- insertionSort on the segment `[a, b)`. -/
def insertionSortGo (g : Student → ℚ) (xs : GoArr) (a b : ℕ) : GoArr :=
  (List.range' (a + 1) (b - (a + 1))).foldl (fun ys i => bubbleLeft g ys a i) xs

/-- siftDown on the heap rooted in the segment starting at `first`. -/
def siftDownGo (g : Student → ℚ) : GoArr → ℕ → ℕ → ℕ → ℕ → GoArr
  | xs, _, _, _, 0 => xs
  | xs, hi, first, root, fuel + 1 =>
      let child := 2 * root + 1
      if child ≥ hi then xs
      else
        let child :=
          if child + 1 < hi ∧ lessAt g xs (first + child) (first + child + 1)
          then child + 1 else child
        if ¬ lessAt g xs (first + root) (first + child) then xs
        else siftDownGo g (aswap xs (first + root) (first + child)) hi first child fuel

/-- heapSort on the segment `[a, b)`. -/
def heapSortGo (g : Student → ℚ) (xs : GoArr) (a b : ℕ) : GoArr :=
  let first := a
  let hi := b - a
  -- build: for i := (hi-1)/2; i >= 0; i--
  let xs := (List.range ((hi - 1) / 2 + 1)).reverse.foldl
    (fun ys i => siftDownGo g ys hi first i (hi + 1)) xs
  -- pop: for i := hi-1; i >= 0; i--: Swap(first, first+i); siftDown(0, i, first)
  (List.range hi).reverse.foldl
    (fun ys i => siftDownGo g (aswap ys first (first + i)) i first 0 (hi + 1)) xs

/-- order2: order two indices by the values they hold, counting swaps. -/
def order2Go (g : Student → ℚ) (xs : GoArr) (a b swaps : ℕ) : ℕ × ℕ × ℕ :=
  if lessAt g xs b a then (b, a, swaps + 1) else (a, b, swaps)

/-- median of the values at three indices, counting swaps. -/
def medianGo (g : Student → ℚ) (xs : GoArr) (a b c swaps : ℕ) : ℕ × ℕ :=
  let (a, b, swaps) := order2Go g xs a b swaps
  let (b, _, swaps) := order2Go g xs b c swaps
  let (_, b, swaps) := order2Go g xs a b swaps
  (b, swaps)

/-- median of the values around index `a`. -/
def medianAdjacentGo (g : Student → ℚ) (xs : GoArr) (a swaps : ℕ) : ℕ × ℕ :=
  medianGo g xs (a - 1) a (a + 1) swaps

inductive SortHint where
  | increasing
  | decreasing
  | unknown
deriving Repr, DecidableEq

/-- choosePivot: median (or ninther for length >= 50) of three positions. -/
def choosePivotGo (g : Student → ℚ) (xs : GoArr) (a b : ℕ) : ℕ × SortHint :=
  let l := b - a
  let i0 := a + l / 4 * 1
  let j0 := a + l / 4 * 2
  let k0 := a + l / 4 * 3
  let (j, swaps) :=
    if l ≥ 8 then
      if l ≥ 50 then
        let (i, s1) := medianAdjacentGo g xs i0 0
        let (j, s2) := medianAdjacentGo g xs j0 s1
        let (k, s3) := medianAdjacentGo g xs k0 s2
        medianGo g xs i j k s3
      else medianGo g xs i0 j0 k0 0
    else (j0, 0)
  if swaps = 0 then (j, SortHint.increasing)
  else if swaps = 12 then (j, SortHint.decreasing)
  else (j, SortHint.unknown)

/-- reverseRange: `i := a; j := b-1; while i < j: Swap(i, j); i++; j--`. -/
def reverseRangeGo (xs : GoArr) (a b : ℕ) : GoArr :=
  (List.range ((b - a) / 2)).foldl (fun ys t => aswap ys (a + t) (b - 1 - t)) xs

/-- One step of the xorshift generator of Go's sort package (uint64). -/
def xorshiftNext (r : ℕ) : ℕ :=
  let m := 2 ^ 64
  let r := (r ^^^ (r <<< 13)) % m
  let r := (r ^^^ (r >>> 7)) % m
  (r ^^^ (r <<< 17)) % m

/-- Bit length `bits.Len(uint(n))`. -/
def bitsLen (n : ℕ) : ℕ := if n = 0 then 0 else Nat.log2 n + 1

def nextPowerOfTwo (l : ℕ) : ℕ := 2 ^ bitsLen l

/-- breakPatterns: scramble three elements around the middle of `[a, b)`. -/
def breakPatternsGo (xs : GoArr) (a b : ℕ) : GoArr :=
  let length := b - a
  if length ≥ 8 then
    let modulus := nextPowerOfTwo length
    let idx := a + (length / 4) * 2 - 1
    let step := fun (p : GoArr × ℕ) (i : ℕ) =>
      let r := xorshiftNext p.2
      let other := r % modulus
      let other := if other ≥ length then other - length else other
      (aswap p.1 (idx - 1 + i) (a + other), r)
    ((List.range 3).foldl step (xs, length)).1
  else xs

/-- Loop `for i <= j && Less(i, a): i++` (partition's left scan). -/
def scanLtGo (g : Student → ℚ) (xs : GoArr) (a j : ℕ) : ℕ → ℕ → ℕ
  | i, 0 => i
  | i, fuel + 1 =>
      if i ≤ j ∧ lessAt g xs i a then scanLtGo g xs a j (i + 1) fuel else i

/-- Loop `for i <= j && !Less(j, a): j--` (partition's right scan). -/
def scanGeGo (g : Student → ℚ) (xs : GoArr) (a i : ℕ) : ℕ → ℕ → ℕ
  | j, 0 => j
  | j, fuel + 1 =>
      if i ≤ j ∧ ¬ lessAt g xs j a then scanGeGo g xs a i (j - 1) fuel else j

/-- The swap loop of partition (after the first exchange). -/
def partitionLoop (g : Student → ℚ) (a : ℕ) : GoArr → ℕ → ℕ → ℕ → GoArr × ℕ
  | xs, _, j, 0 => (xs, j)
  | xs, i, j, fuel + 1 =>
      let i := scanLtGo g xs a j i (j + 2)
      let j := scanGeGo g xs a i j (j + 2)
      if i > j then (xs, j)
      else partitionLoop g a (aswap xs i j) (i + 1) (j - 1) fuel

/-- partition: move the pivot to `a`, split the rest, put the pivot back at
the split point; also reports whether the segment was already partitioned. -/
def partitionGo (g : Student → ℚ) (xs : GoArr) (a b pivot : ℕ) :
    GoArr × ℕ × Bool :=
  let xs := aswap xs a pivot
  let i := scanLtGo g xs a (b - 1) (a + 1) (b + 2)
  let j := scanGeGo g xs a i (b - 1) (b + 2)
  if i > j then
    (aswap xs j a, j, true)
  else
    let xs := aswap xs i j
    let (xs, j2) := partitionLoop g a xs (i + 1) (j - 1) (b + 2)
    (aswap xs j2 a, j2, false)

/-- Loop `for i <= j && !Less(a, i): i++` (partitionEqual's left scan). -/
def scanEqGo (g : Student → ℚ) (xs : GoArr) (a j : ℕ) : ℕ → ℕ → ℕ
  | i, 0 => i
  | i, fuel + 1 =>
      if i ≤ j ∧ ¬ lessAt g xs a i then scanEqGo g xs a j (i + 1) fuel else i

/-- Loop `for i <= j && Less(a, j): j--` (partitionEqual's right scan). -/
def scanNeGo (g : Student → ℚ) (xs : GoArr) (a i : ℕ) : ℕ → ℕ → ℕ
  | j, 0 => j
  | j, fuel + 1 =>
      if i ≤ j ∧ lessAt g xs a j then scanNeGo g xs a i (j - 1) fuel else j

/-- The swap loop of partitionEqual. -/
def partitionEqualLoop (g : Student → ℚ) (a : ℕ) : GoArr → ℕ → ℕ → ℕ → GoArr × ℕ
  | xs, i, _, 0 => (xs, i)
  | xs, i, j, fuel + 1 =>
      let i := scanEqGo g xs a j i (j + 2)
      let j := scanNeGo g xs a i j (j + 2)
      if i > j then (xs, i)
      else partitionEqualLoop g a (aswap xs i j) (i + 1) (j - 1) fuel

/-- partitionEqual: split `[a, b)` into elements equal to and greater than
the pivot (used on segments whose left neighbour equals the pivot). -/
def partitionEqualGo (g : Student → ℚ) (xs : GoArr) (a b pivot : ℕ) :
    GoArr × ℕ :=
  let xs := aswap xs a pivot
  partitionEqualLoop g a xs (a + 1) (b - 1) (b + 2)

/-- Loop `for i < b && !Less(i, i-1): i++`. -/
def advanceSortedGo (g : Student → ℚ) (xs : GoArr) (b : ℕ) : ℕ → ℕ → ℕ
  | i, 0 => i
  | i, fuel + 1 =>
      if i < b ∧ ¬ lessAt g xs i (i - 1) then advanceSortedGo g xs b (i + 1) fuel
      else i

/-- Loop `for j := i-1; j >= 1; j--: if !Less(j, j-1) break; Swap(j, j-1)`. -/
def shiftLeftGo (g : Student → ℚ) : GoArr → ℕ → GoArr
  | xs, 0 => xs
  | xs, j + 1 =>
      if lessAt g xs (j + 1) j then shiftLeftGo g (aswap xs (j + 1) j) j else xs

/-- Loop `for j := i+1; j < b; j++: if !Less(j, j-1) break; Swap(j, j-1)`. -/
def shiftRightGo (g : Student → ℚ) (b : ℕ) : GoArr → ℕ → ℕ → GoArr
  | xs, _, 0 => xs
  | xs, j, fuel + 1 =>
      if j < b ∧ lessAt g xs j (j - 1) then
        shiftRightGo g b (aswap xs j (j - 1)) (j + 1) fuel
      else xs

/-- Go's partial insertion sort (at most 5 repairs of adjacent
out-of-order pairs); returns the array and whether it ended sorted. -/
def tryInsertionSortGo (g : Student → ℚ) (a b : ℕ) : GoArr → ℕ → ℕ → GoArr × Bool
  | xs, _, 0 => (xs, false)
  | xs, i, steps + 1 =>
      let i := advanceSortedGo g xs b i (b + 2)
      if i = b then (xs, true)
      else if b - a < 50 then (xs, false)
      else
        let xs := aswap xs i (i - 1)
        let xs := if i - a ≥ 2 then shiftLeftGo g xs (i - 1) else xs
        let xs := if b - i ≥ 2 then shiftRightGo g b xs (i + 1) (b + 2) else xs
        tryInsertionSortGo g a b xs i steps

/-- pdqsort (`pdqsort_func`): each unit of fuel pays for one iteration of
the outer loop or one recursive call; the fuel passed by `goSortSlice` is
ample for every input. -/
def pdqsortGo (g : Student → ℚ) :
    GoArr → ℕ → ℕ → ℕ → Bool → Bool → ℕ → GoArr
  | xs, _, _, _, _, _, 0 => xs
  | xs, a, b, limit, wasBalanced, wasPartitioned, fuel + 1 =>
      let length := b - a
      if length ≤ 12 then insertionSortGo g xs a b
      else if limit = 0 then heapSortGo g xs a b
      else
        let limit' := if ¬ wasBalanced then limit - 1 else limit
        let xs := if ¬ wasBalanced then breakPatternsGo xs a b else xs
        let ph := choosePivotGo g xs a b
        let xs := if ph.2 = SortHint.decreasing then reverseRangeGo xs a b else xs
        let pivot := if ph.2 = SortHint.decreasing then (b - 1) - (ph.1 - a) else ph.1
        let hint := if ph.2 = SortHint.decreasing then SortHint.increasing else ph.2
        let tryRes :=
          if wasBalanced ∧ wasPartitioned ∧ hint = SortHint.increasing then
            tryInsertionSortGo g a b xs (a + 1) 5
          else (xs, false)
        let xs := tryRes.1
        if tryRes.2 then xs
        else if a > 0 ∧ ¬ lessAt g xs (a - 1) pivot then
          let pe := partitionEqualGo g xs a b pivot
          pdqsortGo g pe.1 pe.2 b limit' wasBalanced wasPartitioned fuel
        else
          let pr := partitionGo g xs a b pivot
          let xs := pr.1
          let mid := pr.2.1
          let wasPartitioned' := pr.2.2
          let leftLen := mid - a
          let rightLen := b - mid
          let balanceThreshold := length / 8
          let wasBalanced' := decide (min leftLen rightLen ≥ balanceThreshold)
          if leftLen < rightLen then
            pdqsortGo g (pdqsortGo g xs a mid limit' wasBalanced' wasPartitioned' fuel)
              (mid + 1) b limit' wasBalanced' wasPartitioned' fuel
          else
            pdqsortGo g (pdqsortGo g xs (mid + 1) b limit' wasBalanced' wasPartitioned' fuel)
              a mid limit' wasBalanced' wasPartitioned' fuel

/-- Entry point `sort.Slice(x, less)`: pdqsort over the whole slice with
`limit = bits.Len(uint(n))`. -/
def goSortSlice (g : Student → ℚ) (xs : GoArr) : GoArr :=
  pdqsortGo g xs 0 xs.size (bitsLen xs.size) true true (8 * xs.size + 16)

/-- Ranking sort `sortByComponent`, main.go:185-191: copy the slice
(`sorted := append([]Student{}, students...)`), sort the copy in place with
`sort.Slice` and the descending comparator, and return it; the argument
slice is left untouched. -/
def sortByComponent (students : List Student) (g : Student → ℚ) : List Student :=
  (goSortSlice g students.toArray).toList

/-- The six scoring dimensions of `printTopStudents`, main.go:163-173:
display name and column selector. -/
def components : List (String × (Student → ℚ)) :=
  [("Quiz (30)", Student.quiz), ("Mid-Sem (75)", Student.midSem),
   ("Lab Test (60)", Student.labTest), ("Weekly Labs", Student.weeklyLabs),
   ("Compre (105)", Student.compre), ("Total (300)", Student.total)]

/-- The ranked slice printed for one dimension, main.go:177-178:
`sorted[:min(3, len(sorted))]`, generalised over `n` as the spec's `topN`
(the code fixes `n = 3`). -/
def topN (students : List Student) (g : Student → ℚ) (n : ℕ) : List Student :=
  let sorted := sortByComponent students g
  sorted.take (min n sorted.length)

/-- The loop of `printTopStudents`, main.go:175-181, with the slice
threading made explicit: each iteration hands the same `students`
collection to `sortByComponent` (which sorts a fresh copy, main.go:186, so
the collection reaching later iterations is the original one), and emits
the top-3 slice of the sorted copy.  Returns the emitted sections and the
collection as it stands after the loop. -/
def printTopStudentsRun :
    List Student → List (String × (Student → ℚ)) → List (List Student) × List Student
  | s, [] => ([], s)
  | s, c :: cs =>
      let sorted := sortByComponent s c.2
      let out := sorted.take (min 3 sorted.length)
      let r := printTopStudentsRun s cs
      (out :: r.1, r.2)

-- ===== Concrete inputs used by witnesses and counterexamples =====

def c5RowOK : List String :=
  ["1", "x", "E1", "2024A7PS1234", "10", "20", "30", "40", "", "50", "150"]

def c5RowBad : List String :=
  ["1", "x", "E2", "9999XX1234", "10", "20", "30", "40", "", "50", "150"]

def c4Row : List String :=
  ["1", "x", "E1", "2024A7PS1234", "100", "50", "40", "30", "", "30", "250.02"]

def c7Row : List String :=
  ["1", "x", "E1", "2024A7PS1234", "abc", "50", "40", "30", "", "30", "150"]

def c6Row : List String :=
  ["1", "x", "E1", "2024A7PS1234", "100", "50", "40", "30", "", "30", "250.05"]

/-- The invariant tying the components of an `AggState` together. -/
def AggInv (st : AggState) : Prop :=
  st.branchSums.map Prod.fst = st.branchCounts.map Prod.fst ∧
  st.totalSum = (st.branchSums.map Prod.snd).sum ∧
  st.totalCount = (st.branchCounts.map Prod.snd).sum ∧
  st.totalCount = st.students.length ∧
  (∀ p ∈ st.branchCounts, 0 < p.2)

/-- A record with only the quiz dimension populated. -/
def quizS (id : String) (q : ℚ) : Student := ⟨id, "2024A7", q, 0, 0, 0, 0, 0⟩

/-- Thirteen records, where "A" and "B" hold the same quiz score and "A"
precedes "B".  Thirteen elements take `sort.Slice`'s pdqsort past its
insertion-sort small-array cutoff (12) into the partitioning path. -/
def tieStudents : List Student :=
  [quizS "S0" 3, quizS "A" 1, quizS "B" 1, quizS "S3" 5, quizS "S4" 9,
   quizS "S5" 9, quizS "S6" 4, quizS "S7" 9, quizS "S8" 9, quizS "S9" 6,
   quizS "S10" 9, quizS "S11" 9, quizS "S12" 9]

def c8Students : List Student := [quizS "X" 5, quizS "Y" 7]

set_option maxRecDepth 10000

-- ===== Helper lemmas =====

/-- Every key of the branch table is six characters long. -/
theorem branchMap_keys_length : ∀ p ∈ branchMap, p.1.length = 6 := by decide

/-- A successful association-list lookup means the key occurs in the list. -/
theorem lookup_mem_keys {α β : Type} [BEq α] [LawfulBEq α] (k : α) :
    ∀ (l : List (α × β)), (l.lookup k).isSome → ∃ p ∈ l, p.1 = k := by
  intro l
  induction l with
  | nil => simp [List.lookup]
  | cons p rest ih =>
    simp only [List.lookup]
    split
    · rename_i hbe
      intro _
      exact ⟨p, List.mem_cons_self p rest, (eq_of_beq hbe).symm⟩
    · intro hs
      obtain ⟨q, hq, hk⟩ := ih hs
      exact ⟨q, List.mem_cons_of_mem _ hq, hk⟩

/-- A string the branch table resolves is six characters long. -/
theorem lookup_key_length {k : String} (h : (branchMap.lookup k).isSome) :
    k.length = 6 := by
  obtain ⟨p, hp, hk⟩ := lookup_mem_keys k branchMap h
  rw [← hk]
  exact branchMap_keys_length p hp

/-- Rejection condition: `parseRow` rejects exactly when the extracted branch is shorter than six
characters (main.go:103). -/
theorem parseRow_fst_eq_none_iff (row : List String) :
    (parseRow row).1 = none ↔ (extractBranch (row.getD 3 "")).length < 6 := by
  simp only [parseRow]
  split
  · rename_i h; exact iff_of_true rfl h
  · rename_i h; exact iff_of_false (by simp) h

/-- Explicit form of `parseRow` on a row whose branch resolves. -/
theorem parseRow_eq_of_branch (row : List String)
    (h : ¬ (extractBranch (row.getD 3 "")).length < 6) :
    parseRow row =
      (some ⟨row.getD 2 "", extractBranch (row.getD 3 ""), numAt row 4, numAt row 5,
        numAt row 6, numAt row 7, numAt row 9, numAt row 10⟩,
       if isWithinTolerance
            (numAt row 4 + numAt row 5 + numAt row 6 + numAt row 7 + numAt row 9)
            (numAt row 10) then []
       else [Diag.discrepancy (row.getD 2 "")
              (numAt row 4 + numAt row 5 + numAt row 6 + numAt row 7 + numAt row 9)
              (numAt row 10)]) := by
  simp only [parseRow, if_neg h]

/-- Case split: `extractBranch` returns either the empty string or the six-character
prefix of its argument, the latter exactly when that prefix is a key. -/
theorem extractBranch_cases (c : String) :
    extractBranch c = "" ∨
      (extractBranch c = (c.toList.take 6).asString ∧
        (branchMap.lookup (extractBranch c)).isSome ∧ (extractBranch c).length = 6) := by
  unfold extractBranch
  dsimp only
  split_ifs with h1 h2
  · exact Or.inl rfl
  · refine Or.inr ⟨rfl, h2, ?_⟩
    rw [List.length_asString, List.length_take]
    have hc : c.toList.length = c.length := rfl
    omega
  · exact Or.inl rfl

/-- When the six-character prefix is a key of the table, `extractBranch`
returns it. -/
theorem extractBranch_of_lookup (c : String)
    (h : (branchMap.lookup ((c.toList.take 6).asString)).isSome) :
    extractBranch c = (c.toList.take 6).asString := by
  have hlen6 : ((c.toList.take 6).asString).length = 6 := lookup_key_length h
  rw [List.length_asString, List.length_take] at hlen6
  have hc : c.toList.length = c.length := rfl
  have hcl : ¬ c.length < 6 := by omega
  unfold extractBranch
  rw [if_neg hcl]
  dsimp only
  rw [if_pos h]

-- ===== Claim theorems =====

/-- Claim C1 (code bug).  The claim says that for every row with at least 10
positional fields, every access `parseRow` performs — including the
declared total at position 10 — is in bounds.  The loop guard
(main.go:72) admits a row with exactly 10 cells, but `parseRow` reads
`row[10]` (main.go:100), which is out of bounds for such a row: in Go this
is a runtime panic.  The guard would have to require at least 11 cells. -/
theorem admitted_row_access_out_of_bounds :
    rowAdmitted 1 (List.replicate 10 "") = true ∧
      ¬ accessesInBounds (List.replicate 10 "") := by decide

/-- Claim C3 (code bug).  The claim says the average computations never divide
with a zero count.  For an input with no accepted data rows (here just a
header), `processFile` finalises with `totalCount = 0`, yet `printResults`
(main.go:155) computes the grand average unconditionally, evaluating
`totalSum/float64(totalCount)` as `0/0` — `NaN` in Go; there is no
"no data" guard in the code. -/
theorem zero_count_grand_average :
    (processFile [["hdr"]]).totalCount = 0 ∧
      overallAverage (processFile [["hdr"]]) = (0 : ℚ) / 0 := by
  constructor
  · rfl
  · norm_num [processFile, initState, overallAverage]

/-- Claim C5 (confirmed).  A row whose campus ID is shorter than six
characters or whose six-character prefix is not a key of `branchMap` is
rejected by `parseRow` (no record is produced); conversely, when the prefix
is a key, `parseRow` accepts and the record's branch label is non-empty and
is a key of `branchMap`. -/
theorem classification_gate (row : List String) :
    (((row.getD 3 "").length < 6 ∨
        (branchMap.lookup (((row.getD 3 "").toList.take 6).asString)).isNone) →
      (parseRow row).1 = none) ∧
    ((branchMap.lookup (((row.getD 3 "").toList.take 6).asString)).isSome →
      ∃ s, (parseRow row).1 = some s ∧ s.branch ≠ "" ∧
        (branchMap.lookup s.branch).isSome) := by
  constructor
  · intro h
    rw [parseRow_fst_eq_none_iff]
    rcases extractBranch_cases (row.getD 3 "") with he | ⟨he, hsome, _⟩
    · rw [he]; decide
    · exfalso
      rw [he] at hsome
      rcases h with h | h
      · have h6 := lookup_key_length hsome
        rw [List.length_asString, List.length_take] at h6
        have hc : (row.getD 3 "").toList.length = (row.getD 3 "").length := rfl
        omega
      · rw [Option.isNone_iff_eq_none] at h
        rw [h] at hsome
        exact absurd hsome (by decide)
  · intro h
    have he := extractBranch_of_lookup (row.getD 3 "") h
    have h6 : (extractBranch (row.getD 3 "")).length = 6 := by
      rw [he]; exact lookup_key_length h
    have hnl : ¬ (extractBranch (row.getD 3 "")).length < 6 := by omega
    refine ⟨_, (congrArg Prod.fst (parseRow_eq_of_branch row hnl)).trans rfl, ?_, ?_⟩
    · intro habs
      have : (extractBranch (row.getD 3 "")).length = 0 := by
        simp only at habs
        rw [habs]
        rfl
      omega
    · simp only
      rw [he]
      exact h

/-- Witness for C5: a resolvable key is accepted with a non-empty branch
label; an unknown key is rejected. -/
theorem classification_gate_witness :
    (∃ s, (parseRow c5RowOK).1 = some s ∧ s.branch ≠ "" ∧
      (branchMap.lookup s.branch).isSome) ∧
    (parseRow c5RowBad).1 = none :=
  ⟨(classification_gate c5RowOK).2 (by decide),
   (classification_gate c5RowBad).1 (Or.inr (by decide))⟩

/-- Claim C4 (confirmed).  On a row whose classification key resolves, the
record is accepted regardless of the tolerance outcome; no diagnostic is
emitted when the computed total (sum of the four pre-examination components
and the final examination component) is within `tolerance = 0.01` of the
declared total, and a discrepancy diagnostic naming the identifier,
expected and found values is emitted when it is not. -/
theorem tolerance_flagging (row : List String)
    (hb : ¬ (extractBranch (row.getD 3 "")).length < 6) :
    (parseRow row).1.isSome ∧
    (isWithinTolerance
        (numAt row 4 + numAt row 5 + numAt row 6 + numAt row 7 + numAt row 9)
        (numAt row 10) = true → (parseRow row).2 = []) ∧
    (isWithinTolerance
        (numAt row 4 + numAt row 5 + numAt row 6 + numAt row 7 + numAt row 9)
        (numAt row 10) = false →
      (parseRow row).2 =
        [Diag.discrepancy (row.getD 2 "")
          (numAt row 4 + numAt row 5 + numAt row 6 + numAt row 7 + numAt row 9)
          (numAt row 10)]) := by
  rw [parseRow_eq_of_branch row hb]
  refine ⟨rfl, ?_, ?_⟩ <;> intro h <;> simp [h]

/-- Witness for C4: declared total `250.02` against computed total `250`
(the spec's `computedTotal + 0.02` example): the record is still accepted
and the discrepancy diagnostic is emitted. -/
theorem tolerance_flagging_witness :
    (parseRow c4Row).1.isSome ∧
      (parseRow c4Row).2 =
        [Diag.discrepancy (c4Row.getD 2 "")
          (numAt c4Row 4 + numAt c4Row 5 + numAt c4Row 6 + numAt c4Row 7 +
            numAt c4Row 9)
          (numAt c4Row 10)] := by
  have h := tolerance_flagging c4Row (by decide)
  refine ⟨h.1, h.2.2 ?_⟩
  simp +decide [numAt, parseFloat, parseUnsigned, digitsToNat, isWithinTolerance,
    tolerance, c5RowOK, c4Row, abs_le]
  norm_num

/-- Reading with `List.getD` after `List.set` at a different position is unchanged. -/
theorem getD_set_ne (l : List String) {i j : ℕ} (a d : String) (h : i ≠ j) :
    (l.set i a).getD j d = l.getD j d := by
  simp [List.getD, List.getElem?_set_ne h]

/-- Congruence: `parseRow` reads a row only through the identifier, the campus ID and
the six numeric cells. -/
theorem parseRow_congr (r1 r2 : List String)
    (h2 : r1.getD 2 "" = r2.getD 2 "") (h3 : r1.getD 3 "" = r2.getD 3 "")
    (h4 : numAt r1 4 = numAt r2 4) (h5 : numAt r1 5 = numAt r2 5)
    (h6 : numAt r1 6 = numAt r2 6) (h7 : numAt r1 7 = numAt r2 7)
    (h9 : numAt r1 9 = numAt r2 9) (h10 : numAt r1 10 = numAt r2 10) :
    parseRow r1 = parseRow r2 := by
  simp only [parseRow, h2, h3, h4, h5, h6, h7, h9, h10]

/-- Claim C7 (confirmed).  A numeric cell that fails to parse is treated as
zero, silently: its value is `0`, and the whole of `parseRow` — acceptance,
record and diagnostics alike — behaves exactly as if the cell had read
`"0"`; no diagnostic records the parse failure and processing continues
unchanged. -/
theorem silent_zero_default (row : List String) (i : ℕ)
    (hi : i ∈ [4, 5, 6, 7, 9, 10])
    (hfail : parseFloat (row.getD i "") = none) :
    numAt row i = 0 ∧ parseRow row = parseRow (row.set i "0") := by
  have hzero : numAt row i = 0 := by rw [numAt, hfail]; rfl
  have hset : numAt (row.set i "0") i = 0 := by
    simp only [numAt, List.getD, List.get?_eq_getElem?]
    rcases lt_or_ge i row.length with hlt | hge
    · rw [List.getElem?_set_eq_of_lt _ hlt]
      decide
    · rw [List.getElem?_eq_none (by simpa using hge)]
      simp only [numAt, List.getD, List.get?_eq_getElem?] at hzero
      rw [List.getElem?_eq_none hge] at hzero
      exact hzero
  have hge4 : 4 ≤ i := by fin_cases hi <;> omega
  have hnum : ∀ j, numAt (row.set i "0") j = numAt row j ∨ i = j := by
    intro j
    by_cases h : i = j
    · exact Or.inr h
    · refine Or.inl ?_
      simp only [numAt]
      rw [getD_set_ne _ _ _ h]
  have hnum' : ∀ j, numAt row j = numAt (row.set i "0") j := by
    intro j
    rcases hnum j with h | h
    · exact h.symm
    · rw [← h, hzero, hset]
  exact ⟨hzero,
    parseRow_congr row (row.set i "0")
      (getD_set_ne _ _ _ (by omega)).symm (getD_set_ne _ _ _ (by omega)).symm
      (hnum' 4) (hnum' 5) (hnum' 6) (hnum' 7) (hnum' 9) (hnum' 10)⟩

/-- Witness for C7: the quiz cell `"abc"` does not parse; its value is `0`
and the row is processed exactly like the row with `"0"` in that cell. -/
theorem silent_zero_default_witness :
    numAt c7Row 4 = 0 ∧ parseRow c7Row = parseRow (c7Row.set 4 "0") :=
  silent_zero_default c7Row 4 (by decide) (by decide)

/-- Claim C6 (confirmed).  An accepted record carries the declared total from
cell 10 of its source row — not the computed component sum — and it is this
declared total that `processFile` adds to the branch sum and the grand sum;
the "Total (300)" ranking dimension also selects this field. -/
theorem declared_total_contribution (row : List String) (st : AggState)
    (s : Student) (hs : (parseRow row).1 = some s) (hlen : ¬ row.length < 10) :
    s.total = numAt row 10 ∧
    (stepRow st row).totalSum = st.totalSum + numAt row 10 ∧
    (stepRow st row).branchSums = bumpQ st.branchSums s.branch (numAt row 10) ∧
    (components.getD 5 ("", fun _ => 0)).2 s = s.total := by
  have hb : ¬ (extractBranch (row.getD 3 "")).length < 6 := by
    intro h
    rw [← parseRow_fst_eq_none_iff] at h
    rw [hs] at h
    exact Option.noConfusion h
  have hrow := parseRow_eq_of_branch row hb
  have hs' : s = ⟨row.getD 2 "", extractBranch (row.getD 3 ""), numAt row 4, numAt row 5,
      numAt row 6, numAt row 7, numAt row 9, numAt row 10⟩ := by
    have := congrArg Prod.fst hrow
    rw [hs] at this
    exact Option.some.inj this
  have htot : s.total = numAt row 10 := by rw [hs']
  refine ⟨htot, ?_, ?_, by rfl⟩ <;>
    simp only [stepRow, if_neg hlen, hs, htot]

/-- Witness for C6: component sum `250.00`, declared total `250.05`
(beyond tolerance): the accepted record's total is `250.05 = 5001/20`, and
that value — not `250` — is what aggregation adds. -/
theorem declared_total_contribution_witness :
    (⟨"E1", "2024A7", 100, 50, 40, 30, 30, (5001 : ℚ)/20⟩ : Student).total
        = numAt c6Row 10 ∧
    (stepRow initState c6Row).totalSum = initState.totalSum + numAt c6Row 10 ∧
    (stepRow initState c6Row).branchSums
        = bumpQ initState.branchSums "2024A7" (numAt c6Row 10) ∧
    (components.getD 5 ("", fun _ => 0)).2
        (⟨"E1", "2024A7", 100, 50, 40, 30, 30, (5001 : ℚ)/20⟩ : Student)
        = (⟨"E1", "2024A7", 100, 50, 40, 30, 30, (5001 : ℚ)/20⟩ : Student).total := by
  have h := declared_total_contribution c6Row initState
    ⟨"E1", "2024A7", 100, 50, 40, 30, 30, (5001 : ℚ)/20⟩ ?_ (by decide)
  · exact h
  · simp +decide [parseRow, c6Row, numAt, parseFloat, parseUnsigned, digitsToNat,
      extractBranch, isWithinTolerance, tolerance, branchMap]
    norm_num

/-- Keys: `bumpQ` preserves the key list or appends the new key at the end. -/
theorem bumpQ_keys (k : String) (v : ℚ) :
    ∀ m : List (String × ℚ),
      (bumpQ m k v).map Prod.fst =
        if k ∈ m.map Prod.fst then m.map Prod.fst else m.map Prod.fst ++ [k] := by
  intro m
  induction m with
  | nil => simp [bumpQ]
  | cons p rest ih =>
    simp only [bumpQ]
    by_cases h : p.1 = k
    · simp [h]
    · simp only [if_neg h, List.map_cons, ih]
      have : ¬ k = p.1 := fun hh => h hh.symm
      by_cases hk : k ∈ rest.map Prod.fst <;>
        simp [hk, List.mem_cons, this]

/-- Keys: `bumpN` preserves the key list or appends the new key at the end. -/
theorem bumpN_keys (k : String) :
    ∀ m : List (String × ℕ),
      (bumpN m k).map Prod.fst =
        if k ∈ m.map Prod.fst then m.map Prod.fst else m.map Prod.fst ++ [k] := by
  intro m
  induction m with
  | nil => simp [bumpN]
  | cons p rest ih =>
    simp only [bumpN]
    by_cases h : p.1 = k
    · simp [h]
    · simp only [if_neg h, List.map_cons, ih]
      have : ¬ k = p.1 := fun hh => h hh.symm
      by_cases hk : k ∈ rest.map Prod.fst <;>
        simp [hk, List.mem_cons, this]

/-- Sums: `bumpQ` adds `v` to the sum of the values. -/
theorem bumpQ_sum (k : String) (v : ℚ) :
    ∀ m : List (String × ℚ),
      ((bumpQ m k v).map Prod.snd).sum = (m.map Prod.snd).sum + v := by
  intro m
  induction m with
  | nil => simp [bumpQ]
  | cons p rest ih =>
    simp only [bumpQ]
    by_cases h : p.1 = k
    · simp [h]; ring
    · simp only [if_neg h, List.map_cons, List.sum_cons, ih]; ring

/-- Sums: `bumpN` adds 1 to the sum of the counts. -/
theorem bumpN_sum (k : String) :
    ∀ m : List (String × ℕ),
      ((bumpN m k).map Prod.snd).sum = (m.map Prod.snd).sum + 1 := by
  intro m
  induction m with
  | nil => simp [bumpN]
  | cons p rest ih =>
    simp only [bumpN]
    by_cases h : p.1 = k
    · simp [h]; omega
    · simp only [if_neg h, List.map_cons, List.sum_cons, ih]; omega

/-- Positivity: `bumpN` keeps every count positive. -/
theorem bumpN_pos (k : String) :
    ∀ m : List (String × ℕ), (∀ p ∈ m, 0 < p.2) →
      ∀ p ∈ bumpN m k, 0 < p.2 := by
  intro m
  induction m with
  | nil =>
    intro _ p hp
    simp only [bumpN, List.mem_singleton] at hp
    simp [hp]
  | cons q rest ih =>
    intro hm p hp
    simp only [bumpN] at hp
    by_cases h : q.1 = k
    · rw [if_pos h] at hp
      rcases List.mem_cons.mp hp with h' | h'
      · simp [h']
      · exact hm p (List.mem_cons_of_mem _ h')
    · rw [if_neg h] at hp
      rcases List.mem_cons.mp hp with h' | h'
      · rw [h']; exact hm q (List.mem_cons_self _ _)
      · exact ih (fun r hr => hm r (List.mem_cons_of_mem _ hr)) p h'

/-- One row preserves the aggregation invariant. -/
theorem stepRow_inv (st : AggState) (row : List String)
    (h : AggInv st) : AggInv (stepRow st row) := by
  obtain ⟨hkeys, hsum, hcount, hlen, hpos⟩ := h
  unfold stepRow
  split
  · exact ⟨hkeys, hsum, hcount, hlen, hpos⟩
  · split
    · exact ⟨hkeys, hsum, hcount, hlen, hpos⟩
    · rename_i s _
      refine ⟨?_, ?_, ?_, ?_, ?_⟩
      · simp only [bumpQ_keys, bumpN_keys, hkeys]
      · simp only [bumpQ_sum, hsum]
      · simp only [bumpN_sum, hcount]
      · simp only [List.length_append, List.length_cons, List.length_nil, hlen]
      · exact bumpN_pos s.branch st.branchCounts hpos

/-- Claim C10 (confirmed).  After processing any row sequence: the grand sum
is the sum of the per-branch sums, the grand count is the sum of the
per-branch counts and equals the number of accepted records, and every
branch present in the sums map has a positive count. -/
theorem aggregation_consistency (rows : List (List String)) :
    (processFile rows).totalSum
        = (((processFile rows).branchSums).map Prod.snd).sum ∧
    (processFile rows).totalCount
        = (((processFile rows).branchCounts).map Prod.snd).sum ∧
    (processFile rows).totalCount = (processFile rows).students.length ∧
    (∀ p ∈ (processFile rows).branchSums,
      ∃ q ∈ (processFile rows).branchCounts, q.1 = p.1 ∧ 0 < q.2) := by
  have hinv : AggInv (processFile rows) := by
    unfold processFile
    have : ∀ (l : List (List String)) (st : AggState), AggInv st →
        AggInv (l.foldl stepRow st) := by
      intro l
      induction l with
      | nil => intro st h; exact h
      | cons r rest ih => intro st h; exact ih _ (stepRow_inv st r h)
    exact this _ initState ⟨rfl, rfl, rfl, rfl, by simp [initState]⟩
  obtain ⟨hkeys, hsum, hcount, hlen, hpos⟩ := hinv
  refine ⟨hsum, hcount, hlen, ?_⟩
  intro p hp
  have hk : p.1 ∈ (processFile rows).branchCounts.map Prod.fst := by
    rw [← hkeys]
    exact List.mem_map_of_mem Prod.fst hp
  obtain ⟨q, hq, hq1⟩ := List.mem_map.mp hk
  exact ⟨q, hq, hq1, hpos q hq⟩

/-- Claim C2 (code bug).  The claim (and spec) demand a stable ranking, but
`sortByComponent` uses `sort.Slice` (main.go:187), whose pdqsort is not
stable: on `tieStudents` the equal-scored records "A" (input position 1)
and "B" (input position 2) come out in the order "B", "A" — the partition
step swaps misplaced equal elements across the pivot in opposite order.
`sort.SliceStable` would be required.  (The claim derives its idempotence
consequence from stability; that premise is what fails here.) -/
theorem ranking_not_stable :
    tieStudents.map Student.empID
      = ["S0", "A", "B", "S3", "S4", "S5", "S6", "S7", "S8", "S9", "S10",
         "S11", "S12"] ∧
    (tieStudents.map Student.quiz).getD 1 0
      = (tieStudents.map Student.quiz).getD 2 0 ∧
    (sortByComponent tieStudents Student.quiz).map Student.empID
      = ["S8", "S12", "S11", "S10", "S4", "S5", "S7", "S9", "S3", "S6",
         "S0", "B", "A"] := by
  refine ⟨by decide, by decide, ?_⟩
  decide

/-- Claim C8 (confirmed).  Here `topN` (the `sorted[:min(3, len)]` slice of
main.go:178, generalised over `n`) returns at most `n` records, sorted in
descending order of the selected score, of length `min n (number of
records)`, and returns the whole ranked collection when `n` is at least the
number of records.  The hypotheses are exactly the documented postcondition
of the library collaborator `sort.Slice` (a sorted permutation) evaluated
at this call; they are dischargeable by computation at any concrete input. -/
theorem topN_spec (students : List Student) (g : Student → ℚ) (n : ℕ)
    (hsorted : (sortByComponent students g).Sorted (fun x y => g y ≤ g x))
    (hperm : (sortByComponent students g).Perm students) :
    (topN students g n).length = min n students.length ∧
    (topN students g n).Sorted (fun x y => g y ≤ g x) ∧
    (topN students g n).length ≤ n ∧
    (students.length ≤ n → topN students g n = sortByComponent students g ∧
      (topN students g n).Perm students) := by
  have hlen : (sortByComponent students g).length = students.length :=
    hperm.length_eq
  have hdef : topN students g n
      = (sortByComponent students g).take (min n (sortByComponent students g).length) :=
    rfl
  refine ⟨?_, ?_, ?_, ?_⟩
  · rw [hdef, List.length_take, hlen]
    omega
  · rw [hdef]
    exact List.Pairwise.sublist (List.take_sublist _ _) hsorted
  · rw [hdef, List.length_take, hlen]
    omega
  · intro hn
    have hmin : min n (sortByComponent students g).length
        = (sortByComponent students g).length := by omega
    have htake : topN students g n = sortByComponent students g := by
      rw [hdef, hmin, List.take_length]
    exact ⟨htake, htake ▸ hperm⟩

/-- Witness for C8: two records ranked by quiz with `n = 3 >` collection
size: both hypotheses evaluate to true, the output is the full ranked
collection of length `min 3 2 = 2`. -/
theorem topN_spec_witness :
    (topN c8Students Student.quiz 3).length = min 3 c8Students.length ∧
    (topN c8Students Student.quiz 3).Sorted
      (fun x y => Student.quiz y ≤ Student.quiz x) ∧
    (topN c8Students Student.quiz 3).length ≤ 3 ∧
    (c8Students.length ≤ 3 →
      topN c8Students Student.quiz 3 = sortByComponent c8Students Student.quiz ∧
      (topN c8Students Student.quiz 3).Perm c8Students) :=
  topN_spec c8Students Student.quiz 3 (by decide) (by decide)

/-- Claim C9 (confirmed).  Because `sortByComponent` sorts a fresh copy of the
collection (`append([]Student{}, students...)`, main.go:186), so the loop
of `printTopStudents` — modelled with the collection it hands along made
explicit — leaves the collection unchanged, and each of the six emitted
rankings equals the ranking computed independently from the original
collection, whatever rankings ran before it. -/
theorem ranking_no_mutation (students : List Student) :
    (printTopStudentsRun students components).2 = students ∧
    (printTopStudentsRun students components).1
      = components.map (fun c => topN students c.2 3) := by
  have key : ∀ cs : List (String × (Student → ℚ)),
      (printTopStudentsRun students cs).2 = students ∧
      (printTopStudentsRun students cs).1
        = cs.map (fun c => topN students c.2 3) := by
    intro cs
    induction cs with
    | nil => exact ⟨rfl, rfl⟩
    | cons c rest ih =>
      refine ⟨ih.1, ?_⟩
      simp only [printTopStudentsRun, List.map_cons]
      rw [ih.2]
      rfl
  exact key components
